import Mathlib

/-!
Shallow embedding of `src/commit.ts` from vig-os/commit-action.

The TypeScript module orchestrates five GitHub REST calls
(get-ref, get-commit, create-blob, create-tree, create-commit, update-ref)
to commit local files to a branch.  We embed it as pure Lean functions:

* the local filesystem is a map `String → Option File` (a `File` carries the
  raw bytes and the POSIX permission mode, covering `existsSync`,
  `readFileSync` and `statSync`);
* the remote API (`octokit.rest.git`) is an `Oracle` of response functions,
  where `none` models a rejected promise (`RemoteAPIError`);
* every operation returns `Except CommitError α × List RemoteCall`: the
  result together with the ordered trace of remote calls it issued, the
  trace being kept even when the operation fails (so claims about "no
  network activity before the error" are statable).
-/

namespace CommitAction

/-- A local file: raw bytes plus the POSIX `stat` permission mode
(`fs.readFileSync` / `fs.statSync(...).mode`). -/
structure File where
  content : List Nat
  mode : Nat
  deriving Repr, DecidableEq

/-- The local filesystem: `fs.existsSync p` is `(lfs p).isSome`. -/
def LocalFS : Type := String → Option File

/-- One entry of the `tree` array sent to `octokit.rest.git.createTree`
(`{ path, mode, type: "blob", sha }`). -/
structure TreeEntry where
  path : String
  mode : String
  type : String
  sha : String
  deriving Repr, DecidableEq

/-- One remote GitHub API call, with the arguments the code passes. -/
inductive RemoteCall where
  | getRef (owner repo ref : String)
  | getCommit (owner repo commitSha : String)
  | createBlob (owner repo content encoding : String)
  | createTree (owner repo baseTreeSha : String) (tree : List TreeEntry)
  | createCommit (owner repo message tree : String) («parents» : List String)
  | updateRef (owner repo ref sha : String) (force : Bool)
  deriving Repr, DecidableEq

/-- Errors the module can surface: the two locally thrown `Error`s and a
rejected remote promise (which the code does not catch, so it bubbles up
carrying the failed call). -/
inductive CommitError where
  | fileNotFound (filePath : String)
  | noFilesToCommit
  | remoteError (call : RemoteCall)
  deriving Repr, DecidableEq

/-- The message string of a locally thrown `Error`. -/
def CommitError.message : CommitError → String
  | .fileNotFound p => "File not found: " ++ p
  | .noFilesToCommit => "No files to commit"
  | .remoteError _ => "remote API error"

/-- Remote API responses.  Each field models one `octokit.rest.git`
endpoint; `none` is a rejected promise. `getRef` returns `ref.object.sha`,
`getCommit` returns `commit.tree.sha`, the three creators return the new
object's `sha`. -/
structure Oracle where
  getRef : String → String → String → Option String
  getCommit : String → String → String → Option String
  createBlob : String → String → String → String → Option String
  createTree : String → String → String → List TreeEntry → Option String
  createCommit : String → String → String → String → List String → Option String
  updateRef : String → String → String → String → Bool → Option Unit

/-- The result of one embedded operation: outcome plus the ordered trace of
remote calls issued (kept also on failure). -/
abbrev Res (α : Type) : Type := Except CommitError α × List RemoteCall

/-- Sequencing of traced operations: `await`-style composition.  On failure
the remaining steps are skipped but the trace so far is preserved. -/
def bindTr {α β : Type} (x : Res α) (f : α → Res β) : Res β :=
  match x with
  | (.error e, tr) => (.error e, tr)
  | (.ok a, tr) =>
    match f a with
    | (r, tr2) => (r, tr ++ tr2)

/-- Issue one remote call: the call is recorded in the trace, and the
oracle's answer (or rejection) becomes the outcome. -/
def callRemote {α : Type} (c : RemoteCall) (resp : Option α) : Res α :=
  match resp with
  | some v => (.ok v, [c])
  | none => (.error (.remoteError c), [c])

/-- The base64 alphabet. -/
def base64Alphabet : List Char :=
  "ABCDEFGHIJKLMNOPQRSTUVWXYZabcdefghijklmnopqrstuvwxyz0123456789+/".toList

/-- The base64 digit for a 6-bit value. -/
def base64Digit (n : Nat) : Char := base64Alphabet.getD n 'A'

/-- RFC 4648 base64 of a byte sequence: `content.toString("base64")`. -/
def base64Encode : List Nat → String
  | [] => ""
  | [b1] =>
    String.mk [base64Digit (b1 / 4), base64Digit (b1 % 4 * 16), '=', '=']
  | [b1, b2] =>
    String.mk [base64Digit (b1 / 4), base64Digit (b1 % 4 * 16 + b2 / 16),
      base64Digit (b2 % 16 * 4), '=']
  | b1 :: b2 :: b3 :: rest =>
    String.mk [base64Digit (b1 / 4), base64Digit (b1 % 4 * 16 + b2 / 16),
      base64Digit (b2 % 16 * 4 + b3 / 64), base64Digit (b3 % 64)]
      ++ base64Encode rest

/-- What `createBlob` returns: `{ sha, mode }` with mode `"100644"` or
`"100755"`. -/
structure BlobRes where
  sha : String
  mode : String
  deriving Repr, DecidableEq

/-- Embedding of `createBlob` (src/commit.ts lines 22-49): check the file
exists locally (throw `File not found` otherwise), read and base64-encode
its bytes, call the remote create-blob endpoint, then classify the mode
from `stats.mode & 0o111`. -/
def createBlob (lfs : LocalFS) (api : Oracle) (owner repo filePath : String) :
    Res BlobRes :=
  match lfs filePath with
  | none => (.error (.fileNotFound filePath), [])
  | some file =>
    let base64Content := base64Encode file.content
    bindTr
      (callRemote (.createBlob owner repo base64Content "base64")
        (api.createBlob owner repo base64Content "base64"))
      fun blobSha =>
        let mode : String :=
          if Nat.land file.mode 0o111 ≠ 0 then "100755" else "100644"
        (.ok { sha := blobSha, mode }, [])

/-- The `for`-loop of `createTree`: one `createBlob` per path, in input
order, pushing `{path, mode, type: "blob", sha}` entries (fail-fast). -/
def buildEntries (lfs : LocalFS) (api : Oracle) (owner repo : String) :
    List String → Res (List TreeEntry)
  | [] => (.ok [], [])
  | filePath :: rest =>
    bindTr (createBlob lfs api owner repo filePath) fun b =>
      bindTr (buildEntries lfs api owner repo rest) fun es =>
        (.ok ({ path := filePath, mode := b.mode, type := "blob",
                 sha := b.sha } :: es), [])

/-- Embedding of `createTree` (src/commit.ts lines 54-81): build the entry
list via `createBlob` per path, then one remote create-tree call layering
the entries on `base_tree`. -/
def createTree (lfs : LocalFS) (api : Oracle)
    (owner repo baseTreeSha : String) (filePaths : List String) :
    Res String :=
  bindTr (buildEntries lfs api owner repo filePaths) fun treeEntries =>
    callRemote (.createTree owner repo baseTreeSha treeEntries)
      (api.createTree owner repo baseTreeSha treeEntries)

/-- Embedding of `createCommit` (src/commit.ts lines 86-102): one remote
create-commit call with `parents: [parentSha]`. -/
def createCommit (api : Oracle)
    (owner repo treeSha parentSha message : String) : Res String :=
  callRemote (.createCommit owner repo message treeSha [parentSha])
    (api.createCommit owner repo message treeSha [parentSha])

/-- Embedding of `updateBranch` (src/commit.ts lines 107-123): one remote
update-ref call on `heads/<branch>`; `force` defaults to `false`. -/
def updateBranch (api : Oracle)
    (owner repo branch commitSha : String) (force : Bool := false) :
    Res Unit :=
  callRemote (.updateRef owner repo ("heads/" ++ branch) commitSha force)
    (api.updateRef owner repo ("heads/" ++ branch) commitSha force)

/-- Embedding of `getBranchInfo` (src/commit.ts lines 128-150): get-ref on
`heads/<branch>`, then get-commit on the tip; returns
`(ref.object.sha, commit.tree.sha)`. -/
def getBranchInfo (api : Oracle) (owner repo branch : String) :
    Res (String × String) :=
  bindTr
    (callRemote (.getRef owner repo ("heads/" ++ branch))
      (api.getRef owner repo ("heads/" ++ branch)))
    fun refSha =>
      bindTr
        (callRemote (.getCommit owner repo refSha)
          (api.getCommit owner repo refSha))
        fun treeSha => (.ok (refSha, treeSha), [])

/-- Input options; `baseSha` is optional (`baseSha?: string`). -/
structure CommitOptions where
  token : String
  owner : String
  repo : String
  branch : String
  message : String
  filePaths : List String
  baseSha : Option String := none
  deriving Repr, DecidableEq

/-- Output of a successful commit. -/
structure CommitResult where
  commitSha : String
  treeSha : String
  filesCommitted : Nat
  deriving Repr, DecidableEq

/-- JavaScript truthiness of `string | undefined`: `undefined` and the
empty string are falsy (`if (baseSha)` in the source). -/
def truthy : Option String → Bool
  | none => false
  | some s => s ≠ ""

/-- Embedding of `commitViaAPI` (src/commit.ts lines 156-214): reject an
empty `filePaths` before anything else, resolve the base commit and its
tree (from `baseSha` if truthy, else from the branch ref), build the new
tree, create the commit with the base as single parent, and fast-forward
the branch ref (`force = false`). -/
def commitViaAPI (lfs : LocalFS) (api : Oracle) (options : CommitOptions) :
    Res CommitResult :=
  if options.filePaths.length = 0 then
    (.error .noFilesToCommit, [])
  else
    bindTr
      (match options.baseSha with
       | some s =>
         if s ≠ "" then
           bindTr
             (callRemote (.getCommit options.owner options.repo s)
               (api.getCommit options.owner options.repo s))
             fun treeSha => (.ok (s, treeSha), [])
         else getBranchInfo api options.owner options.repo options.branch
       | none => getBranchInfo api options.owner options.repo options.branch)
      fun base =>
        bindTr
          (createTree lfs api options.owner options.repo base.2
            options.filePaths)
          fun newTreeSha =>
            bindTr
              (createCommit api options.owner options.repo newTreeSha base.1
                options.message)
              fun commitSha =>
                bindTr
                  (updateBranch api options.owner options.repo options.branch
                    commitSha false)
                  fun _ =>
                    (.ok { commitSha, treeSha := newTreeSha,
                            filesCommitted := options.filePaths.length }, [])

/-! ### Call classifiers -/

/-- Is this call a branch-ref lookup (`octokit.rest.git.getRef`)? -/
def RemoteCall.isGetRef : RemoteCall → Bool
  | .getRef _ _ _ => true
  | _ => false

/-- Is this call a commit lookup (`octokit.rest.git.getCommit`)? -/
def RemoteCall.isGetCommit : RemoteCall → Bool
  | .getCommit _ _ _ => true
  | _ => false

/-- Is this call a blob upload (`octokit.rest.git.createBlob`)? -/
def RemoteCall.isCreateBlob : RemoteCall → Bool
  | .createBlob _ _ _ _ => true
  | _ => false

/-- The number of blob uploads in a trace. -/
def countBlobCalls (tr : List RemoteCall) : Nat :=
  (tr.filter RemoteCall.isCreateBlob).length

/-! ### Concrete fixtures, mirroring the end-to-end scenario of the unit
tests: two regular files and one executable on disk, and a remote that
answers `"base-sha"` / `"base-tree-sha"` / `"blob-sha"` /
`"new-tree-sha"` / `"commit-sha"`. -/

/-- A small concrete filesystem for evaluating the embedding. -/
def sampleFS : LocalFS := fun p =>
  if p = "file1.txt" then some { content := [], mode := 0o644 }
  else if p = "file2.txt" then some { content := [], mode := 0o644 }
  else if p = "script.sh" then some { content := [], mode := 0o755 }
  else none

/-- A concrete oracle with the mocked responses of the end-to-end
scenario. -/
def sampleOracle : Oracle where
  getRef := fun _ _ _ => some "base-sha"
  getCommit := fun _ _ _ => some "base-tree-sha"
  createBlob := fun _ _ _ _ => some "blob-sha"
  createTree := fun _ _ _ _ => some "new-tree-sha"
  createCommit := fun _ _ _ _ _ => some "commit-sha"
  updateRef := fun _ _ _ _ _ => some ()

/-- The end-to-end scenario options: two files, no `baseSha`. -/
def sampleOpts : CommitOptions :=
  { token := "token", owner := "o", repo := "r", branch := "b",
    message := "m", filePaths := ["file1.txt", "file2.txt"] }

/-! ### Basic lemmas about the traced-result combinators -/

theorem bindTr_err {α β : Type} (e : CommitError) (tr : List RemoteCall)
    (f : α → Res β) : bindTr (Except.error e, tr) f = (Except.error e, tr) :=
  rfl

theorem bindTr_okArg {α β : Type} (a : α) (tr : List RemoteCall)
    (f : α → Res β) :
    bindTr (Except.ok a, tr) f = ((f a).1, tr ++ (f a).2) := by
  show (match f a with | (r, tr2) => (r, tr ++ tr2)) = _
  rcases f a with ⟨r2, tr2⟩
  rfl

theorem bindTr_trace_append {α β : Type} (x : Res α) (f : α → Res β) :
    ∃ rest, (bindTr x f).2 = x.2 ++ rest := by
  rcases x with ⟨r, tr⟩
  cases r with
  | error e => exact ⟨[], by simp [bindTr_err]⟩
  | ok a => exact ⟨(f a).2, by simp [bindTr_okArg]⟩

theorem mem_bindTr {α β : Type} {x : Res α} {f : α → Res β} {c : RemoteCall}
    (hc : c ∈ (bindTr x f).2) :
    c ∈ x.2 ∨ ∃ a, x.1 = Except.ok a ∧ c ∈ (f a).2 := by
  rcases x with ⟨r, tr⟩
  cases r with
  | error e => exact Or.inl hc
  | ok a =>
    rw [bindTr_okArg] at hc
    rcases List.mem_append.mp hc with h | h
    · exact Or.inl h
    · exact Or.inr ⟨a, rfl, h⟩

theorem bindTr_eq_ok {α β : Type} {x : Res α} {f : α → Res β} {b : β}
    {tr : List RemoteCall} (h : bindTr x f = (Except.ok b, tr)) :
    ∃ a tra trb, x = (Except.ok a, tra) ∧ f a = (Except.ok b, trb) ∧
      tr = tra ++ trb := by
  rcases x with ⟨r, tra⟩
  cases r with
  | error e => exact absurd (congrArg Prod.fst h) (by simp [bindTr_err])
  | ok a =>
    rcases hfa : f a with ⟨r2, tr2⟩
    rw [bindTr_okArg, hfa] at h
    simp only [Prod.mk.injEq] at h
    obtain ⟨rfl, rfl⟩ := h
    exact ⟨a, tra, tr2, rfl, hfa, rfl⟩

theorem callRemote_trace {α : Type} (c : RemoteCall) (resp : Option α) :
    (callRemote c resp).2 = [c] := by
  cases resp <;> rfl

theorem callRemote_eq_ok {α : Type} {c : RemoteCall} {resp : Option α}
    {v : α} {tr : List RemoteCall} (h : callRemote c resp = (Except.ok v, tr)) :
    resp = some v ∧ tr = [c] := by
  cases resp with
  | none => exact absurd (congrArg Prod.fst h) (by simp [callRemote])
  | some w =>
    rcases Prod.mk.injEq .. ▸ h with ⟨h1, h2⟩
    rcases Except.ok.injEq .. ▸ h1 with rfl
    exact ⟨rfl, h2.symm⟩

/-! ### Trace shapes and success inversions of the five operations -/

theorem buildEntries_nil (lfs : LocalFS) (api : Oracle) (owner repo : String) :
    buildEntries lfs api owner repo [] = (Except.ok [], []) := rfl

theorem buildEntries_cons (lfs : LocalFS) (api : Oracle)
    (owner repo filePath : String) (rest : List String) :
    buildEntries lfs api owner repo (filePath :: rest)
      = bindTr (createBlob lfs api owner repo filePath) (fun b =>
          bindTr (buildEntries lfs api owner repo rest) (fun es =>
            (Except.ok ({ path := filePath, mode := b.mode, type := "blob",
                           sha := b.sha } :: es), []))) := rfl

theorem createBlob_trace_mem {lfs : LocalFS} {api : Oracle}
    {owner repo filePath : String} {c : RemoteCall}
    (hc : c ∈ (createBlob lfs api owner repo filePath).2) :
    ∃ b64, c = RemoteCall.createBlob owner repo b64 "base64" := by
  cases hfile : lfs filePath with
  | none => simp [createBlob, hfile] at hc
  | some file =>
    simp only [createBlob, hfile] at hc
    rcases mem_bindTr hc with h | ⟨a, _, h⟩
    · rw [callRemote_trace] at h
      exact ⟨_, List.mem_singleton.mp h⟩
    · simp at h

theorem createBlob_eq_ok {lfs : LocalFS} {api : Oracle}
    {owner repo filePath : String} {b : BlobRes} {tr : List RemoteCall}
    (h : createBlob lfs api owner repo filePath = (Except.ok b, tr)) :
    ∃ file, lfs filePath = some file ∧
      api.createBlob owner repo (base64Encode file.content) "base64"
        = some b.sha ∧
      b.mode = (if Nat.land file.mode 0o111 ≠ 0 then "100755" else "100644") ∧
      tr = [.createBlob owner repo (base64Encode file.content) "base64"] := by
  cases hfile : lfs filePath with
  | none =>
    simp only [createBlob, hfile] at h
    exact absurd (congrArg Prod.fst h) (by simp)
  | some file =>
    simp only [createBlob, hfile] at h
    obtain ⟨a, tra, trb, h1, h2, rfl⟩ := bindTr_eq_ok h
    obtain ⟨hresp, rfl⟩ := callRemote_eq_ok h1
    simp only [Prod.mk.injEq, Except.ok.injEq] at h2
    obtain ⟨rfl, rfl⟩ := h2
    exact ⟨file, rfl, hresp, rfl, rfl⟩

theorem buildEntries_trace_mem {lfs : LocalFS} {api : Oracle}
    {owner repo : String} : ∀ {ps : List String} {c : RemoteCall},
    c ∈ (buildEntries lfs api owner repo ps).2 →
    ∃ b64, c = RemoteCall.createBlob owner repo b64 "base64"
  | [], c, hc => by simp [buildEntries_nil] at hc
  | p :: ps, c, hc => by
    rw [buildEntries_cons] at hc
    rcases mem_bindTr hc with h | ⟨b, _, h⟩
    · exact createBlob_trace_mem h
    · rcases mem_bindTr h with h2 | ⟨es, _, h2⟩
      · exact buildEntries_trace_mem h2
      · simp at h2

theorem buildEntries_eq_ok {lfs : LocalFS} {api : Oracle}
    {owner repo : String} : ∀ {ps : List String} {es : List TreeEntry}
    {tr : List RemoteCall},
    buildEntries lfs api owner repo ps = (Except.ok es, tr) →
    es.map TreeEntry.path = ps ∧ tr.length = ps.length
  | [], es, tr, h => by
    rw [buildEntries_nil] at h
    simp only [Prod.mk.injEq, Except.ok.injEq] at h
    obtain ⟨rfl, rfl⟩ := h
    exact ⟨rfl, rfl⟩
  | p :: ps, es, tr, h => by
    rw [buildEntries_cons] at h
    obtain ⟨b, tra, trb, h1, h2, rfl⟩ := bindTr_eq_ok h
    obtain ⟨es2, trb1, trb2, h3, h4, rfl⟩ := bindTr_eq_ok h2
    simp only [Prod.mk.injEq, Except.ok.injEq] at h4
    obtain ⟨rfl, rfl⟩ := h4
    obtain ⟨hmap, hlen⟩ := buildEntries_eq_ok h3
    obtain ⟨file, _, _, _, rfl⟩ := createBlob_eq_ok h1
    simp [hmap, hlen]

theorem callRemote_fst_ok {α : Type} {c : RemoteCall} {resp : Option α}
    {v : α} (h : (callRemote c resp).1 = Except.ok v) : resp = some v := by
  cases resp with
  | none => exact absurd h (by simp [callRemote])
  | some w =>
    simp only [callRemote, Except.ok.injEq] at h
    rw [h]

theorem createTree_eq_ok {lfs : LocalFS} {api : Oracle}
    {owner repo baseTreeSha : String} {ps : List String} {t : String}
    {tr : List RemoteCall}
    (h : createTree lfs api owner repo baseTreeSha ps = (Except.ok t, tr)) :
    ∃ es trb, buildEntries lfs api owner repo ps = (Except.ok es, trb) ∧
      api.createTree owner repo baseTreeSha es = some t ∧
      es.map TreeEntry.path = ps ∧ trb.length = ps.length ∧
      tr = trb ++ [.createTree owner repo baseTreeSha es] := by
  rw [createTree] at h
  obtain ⟨es, trb, trc, h1, h2, rfl⟩ := bindTr_eq_ok h
  obtain ⟨hresp, rfl⟩ := callRemote_eq_ok h2
  obtain ⟨hmap, hlen⟩ := buildEntries_eq_ok h1
  exact ⟨es, trb, h1, hresp, hmap, hlen, rfl⟩

theorem createTree_trace_mem {lfs : LocalFS} {api : Oracle}
    {owner repo baseTreeSha : String} {ps : List String} {c : RemoteCall}
    (hc : c ∈ (createTree lfs api owner repo baseTreeSha ps).2) :
    (∃ b64, c = RemoteCall.createBlob owner repo b64 "base64") ∨
    ∃ es, c = RemoteCall.createTree owner repo baseTreeSha es := by
  rw [createTree] at hc
  rcases mem_bindTr hc with h | ⟨es, _, h⟩
  · exact Or.inl (buildEntries_trace_mem h)
  · rw [callRemote_trace] at h
    exact Or.inr ⟨es, List.mem_singleton.mp h⟩

theorem createCommit_trace (api : Oracle)
    (owner repo treeSha parentSha message : String) :
    (createCommit api owner repo treeSha parentSha message).2
      = [.createCommit owner repo message treeSha [parentSha]] :=
  callRemote_trace _ _

theorem createCommit_eq_ok {api : Oracle}
    {owner repo treeSha parentSha message sha : String}
    {tr : List RemoteCall}
    (h : createCommit api owner repo treeSha parentSha message
      = (Except.ok sha, tr)) :
    api.createCommit owner repo message treeSha [parentSha] = some sha ∧
      tr = [.createCommit owner repo message treeSha [parentSha]] :=
  callRemote_eq_ok h

theorem updateBranch_trace (api : Oracle)
    (owner repo branch commitSha : String) (force : Bool) :
    (updateBranch api owner repo branch commitSha force).2
      = [.updateRef owner repo ("heads/" ++ branch) commitSha force] :=
  callRemote_trace _ _

/-- The `force` parameter of `updateBranch` defaults to `false`. -/
theorem updateBranch_default (api : Oracle)
    (owner repo branch commitSha : String) :
    updateBranch api owner repo branch commitSha
      = updateBranch api owner repo branch commitSha false := rfl

theorem updateBranch_eq_ok {api : Oracle}
    {owner repo branch commitSha : String} {force : Bool} {u : Unit}
    {tr : List RemoteCall}
    (h : updateBranch api owner repo branch commitSha force
      = (Except.ok u, tr)) :
    api.updateRef owner repo ("heads/" ++ branch) commitSha force
        = some () ∧
      tr = [.updateRef owner repo ("heads/" ++ branch) commitSha force] := by
  obtain ⟨h1, h2⟩ := callRemote_eq_ok h
  exact ⟨by rw [h1], h2⟩

theorem getBranchInfo_trace_head (api : Oracle) (owner repo branch : String) :
    ∃ rest, (getBranchInfo api owner repo branch).2
      = RemoteCall.getRef owner repo ("heads/" ++ branch) :: rest := by
  rw [getBranchInfo]
  obtain ⟨rest, h⟩ := bindTr_trace_append
    (callRemote (.getRef owner repo ("heads/" ++ branch))
      (api.getRef owner repo ("heads/" ++ branch))) _
  rw [h, callRemote_trace]
  exact ⟨rest, rfl⟩

theorem getBranchInfo_trace_mem {api : Oracle} {owner repo branch : String}
    {c : RemoteCall} (hc : c ∈ (getBranchInfo api owner repo branch).2) :
    c = RemoteCall.getRef owner repo ("heads/" ++ branch) ∨
    ∃ v, c = RemoteCall.getCommit owner repo v ∧
      api.getRef owner repo ("heads/" ++ branch) = some v := by
  rw [getBranchInfo] at hc
  rcases mem_bindTr hc with h | ⟨v, hv, h⟩
  · rw [callRemote_trace] at h
    exact Or.inl (List.mem_singleton.mp h)
  · rcases mem_bindTr h with h2 | ⟨w, _, h2⟩
    · rw [callRemote_trace] at h2
      exact Or.inr ⟨v, List.mem_singleton.mp h2, callRemote_fst_ok hv⟩
    · simp at h2

theorem getBranchInfo_eq_ok {api : Oracle} {owner repo branch : String}
    {p : String × String} {tr : List RemoteCall}
    (h : getBranchInfo api owner repo branch = (Except.ok p, tr)) :
    api.getRef owner repo ("heads/" ++ branch) = some p.1 ∧
      api.getCommit owner repo p.1 = some p.2 ∧
      tr = [RemoteCall.getRef owner repo ("heads/" ++ branch),
            RemoteCall.getCommit owner repo p.1] := by
  rw [getBranchInfo] at h
  obtain ⟨v, tra, trb, h1, h2, rfl⟩ := bindTr_eq_ok h
  obtain ⟨hr, rfl⟩ := callRemote_eq_ok h1
  obtain ⟨w, trc, trd, h3, h4, rfl⟩ := bindTr_eq_ok h2
  obtain ⟨hg, rfl⟩ := callRemote_eq_ok h3
  simp only [Prod.mk.injEq, Except.ok.injEq] at h4
  obtain ⟨rfl, rfl⟩ := h4
  exact ⟨hr, hg, rfl⟩

/-- Master inversion for a successful `commitViaAPI` run: every remote
response it consumed, the shape of the whole call trace, and how the base
commit/tree pair was resolved. -/
theorem commitViaAPI_eq_ok {lfs : LocalFS} {api : Oracle}
    {opts : CommitOptions} {r : CommitResult} {tr : List RemoteCall}
    (h : commitViaAPI lfs api opts = (Except.ok r, tr)) :
    ∃ bc bt es trb trbase,
      opts.filePaths ≠ [] ∧
      api.getCommit opts.owner opts.repo bc = some bt ∧
      buildEntries lfs api opts.owner opts.repo opts.filePaths
        = (Except.ok es, trb) ∧
      es.map TreeEntry.path = opts.filePaths ∧
      trb.length = opts.filePaths.length ∧
      api.createTree opts.owner opts.repo bt es = some r.treeSha ∧
      api.createCommit opts.owner opts.repo opts.message r.treeSha [bc]
        = some r.commitSha ∧
      api.updateRef opts.owner opts.repo ("heads/" ++ opts.branch)
        r.commitSha false = some () ∧
      r.filesCommitted = opts.filePaths.length ∧
      ((trbase = [RemoteCall.getCommit opts.owner opts.repo bc] ∧
          opts.baseSha = some bc ∧ bc ≠ "") ∨
       (trbase = [RemoteCall.getRef opts.owner opts.repo
                    ("heads/" ++ opts.branch),
                  RemoteCall.getCommit opts.owner opts.repo bc] ∧
          api.getRef opts.owner opts.repo ("heads/" ++ opts.branch)
            = some bc ∧
          (opts.baseSha = none ∨ opts.baseSha = some ""))) ∧
      tr = trbase ++ trb
        ++ [RemoteCall.createTree opts.owner opts.repo bt es,
            RemoteCall.createCommit opts.owner opts.repo opts.message
              r.treeSha [bc],
            RemoteCall.updateRef opts.owner opts.repo
              ("heads/" ++ opts.branch) r.commitSha false] := by
  rw [commitViaAPI] at h
  split at h
  case isTrue hlen => exact absurd (congrArg Prod.fst h) (by simp)
  case isFalse hlen =>
    obtain ⟨base, trbase0, tr2, hbase, hrest, rfl⟩ := bindTr_eq_ok h
    obtain ⟨newTree, trt, tr3, htree, hrest2, rfl⟩ := bindTr_eq_ok hrest
    obtain ⟨es, trb, hbuild, hct, hmap, hblen, rfl⟩ := createTree_eq_ok htree
    obtain ⟨commitSha0, trc, tr4, hcomm, hrest3, rfl⟩ := bindTr_eq_ok hrest2
    obtain ⟨hcc, rfl⟩ := createCommit_eq_ok hcomm
    obtain ⟨u, tru, tr5, hupd, hfin, rfl⟩ := bindTr_eq_ok hrest3
    obtain ⟨hur, rfl⟩ := updateBranch_eq_ok hupd
    simp only [Prod.mk.injEq, Except.ok.injEq] at hfin
    obtain ⟨rfl, rfl⟩ := hfin
    have hps : opts.filePaths ≠ [] := fun hnil => hlen (by rw [hnil]; rfl)
    rcases hbs : opts.baseSha with _ | s
    · simp only [hbs] at hbase
      obtain ⟨hr, hg, rfl⟩ := getBranchInfo_eq_ok hbase
      exact ⟨base.1, base.2, es, trb, _, hps, hg, hbuild, hmap, hblen,
        hct, hcc, hur, rfl, Or.inr ⟨rfl, hr, Or.inl rfl⟩, by simp⟩
    · simp only [hbs] at hbase
      by_cases hne : s ≠ ""
      · rw [if_pos hne] at hbase
        obtain ⟨t, tra, trbb, h1, h2, rfl⟩ := bindTr_eq_ok hbase
        obtain ⟨hresp, rfl⟩ := callRemote_eq_ok h1
        simp only [Prod.mk.injEq, Except.ok.injEq] at h2
        obtain ⟨rfl, rfl⟩ := h2
        exact ⟨s, t, es, trb, _, hps, hresp, hbuild, hmap, hblen,
          hct, hcc, hur, rfl, Or.inl ⟨rfl, rfl, hne⟩, by simp⟩
      · rw [if_neg hne] at hbase
        obtain ⟨hr, hg, rfl⟩ := getBranchInfo_eq_ok hbase
        rw [not_not] at hne
        exact ⟨base.1, base.2, es, trb, _, hps, hg, hbuild, hmap, hblen,
          hct, hcc, hur, rfl, Or.inr ⟨rfl, hr, Or.inr (by rw [hne])⟩, by simp⟩

theorem bindTr_trace_cons {α β : Type} {x : Res α} (f : α → Res β)
    {c : RemoteCall} {rest : List RemoteCall} (hx : x.2 = c :: rest) :
    ∃ rest2, (bindTr x f).2 = c :: rest2 := by
  obtain ⟨r, h⟩ := bindTr_trace_append x f
  rw [h, hx]
  exact ⟨rest ++ r, by simp⟩

/-- The empty-input guard: an empty `filePaths` fails immediately with the
`No files to commit` error and an empty remote-call trace. -/
theorem commitViaAPI_empty {lfs : LocalFS} {api : Oracle}
    {opts : CommitOptions} (h : opts.filePaths = []) :
    commitViaAPI lfs api opts
      = (Except.error CommitError.noFilesToCommit, []) := by
  rw [commitViaAPI, if_pos (by rw [h]; rfl)]

/-- A locally missing file makes `createBlob` fail with `fileNotFound`
before any remote call. -/
theorem createBlob_missing {lfs : LocalFS} {api : Oracle}
    {owner repo filePath : String} (h : lfs filePath = none) :
    createBlob lfs api owner repo filePath
      = (Except.error (CommitError.fileNotFound filePath), []) := by
  simp only [createBlob, h]

theorem resolveBase_fst_ok {api : Oracle} {owner repo s : String}
    {base : String × String}
    (hb : (bindTr
        (callRemote (RemoteCall.getCommit owner repo s)
          (api.getCommit owner repo s))
        (fun treeSha => (Except.ok (s, treeSha), []))).1 = Except.ok base) :
    base.1 = s ∧ api.getCommit owner repo s = some base.2 := by
  cases hresp : api.getCommit owner repo s with
  | none =>
    rw [hresp] at hb
    exact absurd hb (by simp [callRemote, bindTr_err])
  | some t =>
    rw [hresp] at hb
    simp only [callRemote, bindTr_okArg, Except.ok.injEq] at hb
    rw [← hb]
    exact ⟨rfl, rfl⟩

/-- Every remote call `commitViaAPI` can ever issue, whatever the local
filesystem and the oracle answers: only the six endpoints, always on the
caller's `owner`/`repo`, update-ref always on `heads/<branch>` with
`force = false`, create-commit always with a single parent. -/
theorem commitViaAPI_trace_mem {lfs : LocalFS} {api : Oracle}
    {opts : CommitOptions} {c : RemoteCall}
    (hc : c ∈ (commitViaAPI lfs api opts).2) :
    c = RemoteCall.getRef opts.owner opts.repo ("heads/" ++ opts.branch) ∨
    (∃ v, c = RemoteCall.getCommit opts.owner opts.repo v) ∨
    (∃ b64, c = RemoteCall.createBlob opts.owner opts.repo b64 "base64") ∨
    (∃ bt es, c = RemoteCall.createTree opts.owner opts.repo bt es) ∨
    (∃ t p, c = RemoteCall.createCommit opts.owner opts.repo
      opts.message t [p]) ∨
    (∃ sha, c = RemoteCall.updateRef opts.owner opts.repo
      ("heads/" ++ opts.branch) sha false) := by
  rw [commitViaAPI] at hc
  split at hc
  · simp at hc
  · rcases mem_bindTr hc with h | ⟨base, hb, h⟩
    · rcases hbs : opts.baseSha with _ | s
      · simp only [hbs] at h
        rcases getBranchInfo_trace_mem h with h1 | ⟨v, h1, _⟩
        · exact Or.inl h1
        · exact Or.inr (Or.inl ⟨v, h1⟩)
      · simp only [hbs] at h
        by_cases hne : s ≠ ""
        · rw [if_pos hne] at h
          rcases mem_bindTr h with h2 | ⟨t, _, h2⟩
          · rw [callRemote_trace] at h2
            exact Or.inr (Or.inl ⟨s, List.mem_singleton.mp h2⟩)
          · simp at h2
        · rw [if_neg hne] at h
          rcases getBranchInfo_trace_mem h with h1 | ⟨v, h1, _⟩
          · exact Or.inl h1
          · exact Or.inr (Or.inl ⟨v, h1⟩)
    · rcases mem_bindTr h with h2 | ⟨newTree, _, h2⟩
      · rcases createTree_trace_mem h2 with ⟨b64, h3⟩ | ⟨es, h3⟩
        · exact Or.inr (Or.inr (Or.inl ⟨b64, h3⟩))
        · exact Or.inr (Or.inr (Or.inr (Or.inl ⟨base.2, es, h3⟩)))
      · rcases mem_bindTr h2 with h3 | ⟨cs, _, h3⟩
        · rw [createCommit_trace] at h3
          exact Or.inr (Or.inr (Or.inr (Or.inr (Or.inl
            ⟨newTree, base.1, List.mem_singleton.mp h3⟩))))
        · rcases mem_bindTr h3 with h4 | ⟨u, _, h4⟩
          · rw [updateBranch_trace] at h4
            exact Or.inr (Or.inr (Or.inr (Or.inr (Or.inr
              ⟨cs, List.mem_singleton.mp h4⟩))))
          · simp at h4

/-- Refined trace shape when a non-empty `baseSha` is supplied: no
branch-ref lookup ever occurs, the only commit lookup is on `baseSha`,
every tree is built on that commit's tree, and every commit is created
with `baseSha` as its single parent. -/
theorem commitViaAPI_trace_mem_base {lfs : LocalFS} {api : Oracle}
    {opts : CommitOptions} {s : String} {c : RemoteCall}
    (hbs : opts.baseSha = some s) (hne : s ≠ "")
    (hc : c ∈ (commitViaAPI lfs api opts).2) :
    c = RemoteCall.getCommit opts.owner opts.repo s ∨
    (∃ b64, c = RemoteCall.createBlob opts.owner opts.repo b64 "base64") ∨
    (∃ t es, c = RemoteCall.createTree opts.owner opts.repo t es ∧
      api.getCommit opts.owner opts.repo s = some t) ∨
    (∃ t, c = RemoteCall.createCommit opts.owner opts.repo
      opts.message t [s]) ∨
    (∃ sha, c = RemoteCall.updateRef opts.owner opts.repo
      ("heads/" ++ opts.branch) sha false) := by
  rw [commitViaAPI] at hc
  split at hc
  · simp at hc
  · simp only [hbs] at hc
    rw [if_pos hne] at hc
    rcases mem_bindTr hc with h | ⟨base, hb, h⟩
    · rcases mem_bindTr h with h2 | ⟨t, _, h2⟩
      · rw [callRemote_trace] at h2
        exact Or.inl (List.mem_singleton.mp h2)
      · simp at h2
    · obtain ⟨hb1, hb2⟩ := resolveBase_fst_ok hb
      rcases mem_bindTr h with h2 | ⟨newTree, _, h2⟩
      · rcases createTree_trace_mem h2 with ⟨b64, h3⟩ | ⟨es, h3⟩
        · exact Or.inr (Or.inl ⟨b64, h3⟩)
        · exact Or.inr (Or.inr (Or.inl ⟨base.2, es, h3, hb2⟩))
      · rcases mem_bindTr h2 with h3 | ⟨cs, _, h3⟩
        · rw [createCommit_trace] at h3
          refine Or.inr (Or.inr (Or.inr (Or.inl
            ⟨newTree, ?_⟩)))
          rw [← hb1]
          exact List.mem_singleton.mp h3
        · rcases mem_bindTr h3 with h4 | ⟨u, _, h4⟩
          · rw [updateBranch_trace] at h4
            exact Or.inr (Or.inr (Or.inr (Or.inr
              ⟨cs, List.mem_singleton.mp h4⟩)))
          · simp at h4

/-- With a non-empty `baseSha` and non-empty `filePaths`, the very first
remote call is the commit lookup on `baseSha`. -/
theorem commitViaAPI_head_base {lfs : LocalFS} {api : Oracle}
    {opts : CommitOptions} {s : String}
    (hbs : opts.baseSha = some s) (hne : s ≠ "")
    (hps : opts.filePaths ≠ []) :
    (commitViaAPI lfs api opts).2.head?
      = some (RemoteCall.getCommit opts.owner opts.repo s) := by
  rw [commitViaAPI, if_neg (by simpa using hps)]
  simp only [hbs]
  rw [if_pos hne]
  obtain ⟨r1, h1⟩ := bindTr_trace_cons
    (fun treeSha => (Except.ok (s, treeSha), []))
    (callRemote_trace (RemoteCall.getCommit opts.owner opts.repo s)
      (api.getCommit opts.owner opts.repo s))
  obtain ⟨r2, h2⟩ := bindTr_trace_cons _ h1
  rw [h2]
  rfl

/-- With no `baseSha` and non-empty `filePaths`, the very first remote
call is the branch-ref lookup on `heads/<branch>`. -/
theorem commitViaAPI_head_branch {lfs : LocalFS} {api : Oracle}
    {opts : CommitOptions}
    (hbs : opts.baseSha = none) (hps : opts.filePaths ≠ []) :
    (commitViaAPI lfs api opts).2.head?
      = some (RemoteCall.getRef opts.owner opts.repo
          ("heads/" ++ opts.branch)) := by
  rw [commitViaAPI, if_neg (by simpa using hps)]
  simp only [hbs]
  obtain ⟨r1, h1⟩ := getBranchInfo_trace_head api opts.owner opts.repo
    opts.branch
  obtain ⟨r2, h2⟩ := bindTr_trace_cons _ h1
  rw [h2]
  rfl

/-- Refined trace shape when `baseSha` is absent: the base is resolved via
the branch ref, so every commit lookup in the trace is on the branch tip
returned by the ref lookup. -/
theorem commitViaAPI_trace_mem_branch {lfs : LocalFS} {api : Oracle}
    {opts : CommitOptions} {c : RemoteCall}
    (hbs : opts.baseSha = none)
    (hc : c ∈ (commitViaAPI lfs api opts).2) :
    c = RemoteCall.getRef opts.owner opts.repo ("heads/" ++ opts.branch) ∨
    (∃ v, c = RemoteCall.getCommit opts.owner opts.repo v ∧
      api.getRef opts.owner opts.repo ("heads/" ++ opts.branch)
        = some v) ∨
    (∃ b64, c = RemoteCall.createBlob opts.owner opts.repo b64 "base64") ∨
    (∃ t es, c = RemoteCall.createTree opts.owner opts.repo t es) ∨
    (∃ t p, c = RemoteCall.createCommit opts.owner opts.repo
      opts.message t [p]) ∨
    (∃ sha, c = RemoteCall.updateRef opts.owner opts.repo
      ("heads/" ++ opts.branch) sha false) := by
  rw [commitViaAPI] at hc
  split at hc
  · simp at hc
  · simp only [hbs] at hc
    rcases mem_bindTr hc with h | ⟨base, hb, h⟩
    · rcases getBranchInfo_trace_mem h with h1 | ⟨v, h1, h2⟩
      · exact Or.inl h1
      · exact Or.inr (Or.inl ⟨v, h1, h2⟩)
    · rcases mem_bindTr h with h2 | ⟨newTree, _, h2⟩
      · rcases createTree_trace_mem h2 with ⟨b64, h3⟩ | ⟨es, h3⟩
        · exact Or.inr (Or.inr (Or.inl ⟨b64, h3⟩))
        · exact Or.inr (Or.inr (Or.inr (Or.inl ⟨base.2, es, h3⟩)))
      · rcases mem_bindTr h2 with h3 | ⟨cs, _, h3⟩
        · rw [createCommit_trace] at h3
          exact Or.inr (Or.inr (Or.inr (Or.inr (Or.inl
            ⟨newTree, base.1, List.mem_singleton.mp h3⟩))))
        · rcases mem_bindTr h3 with h4 | ⟨u, _, h4⟩
          · rw [updateBranch_trace] at h4
            exact Or.inr (Or.inr (Or.inr (Or.inr (Or.inr
              ⟨cs, List.mem_singleton.mp h4⟩))))
          · simp at h4

/-! ### Claim theorems -/

/-- Claim C1 (amended): for every non-empty `filePaths` list, in a
successful run `createTree` invokes `createBlob` exactly once per
element of the list (not once per distinct path), and the tree-entry
list sent to the remote create-tree call has its path list equal to
`filePaths` itself — same length, same paths in the same input order,
hence the same path set, no silent drops, and no duplicates whenever the
input itself has none. -/
theorem claim_C1 (lfs : LocalFS) (api : Oracle)
    (owner repo baseTreeSha : String) (ps : List String) (t : String)
    (tr : List RemoteCall) (_hps : ps ≠ [])
    (h : createTree lfs api owner repo baseTreeSha ps = (Except.ok t, tr)) :
    ∃ es, RemoteCall.createTree owner repo baseTreeSha es ∈ tr ∧
      api.createTree owner repo baseTreeSha es = some t ∧
      es.map TreeEntry.path = ps ∧
      es.length = ps.length ∧
      countBlobCalls tr = ps.length ∧
      (ps.Nodup → (es.map TreeEntry.path).Nodup) := by
  obtain ⟨es, trb, hbuild, hct, hmap, hlen, rfl⟩ := createTree_eq_ok h
  refine ⟨es, by simp, hct, hmap, ?_, ?_, ?_⟩
  · rw [← hmap]
    simp
  · unfold countBlobCalls
    rw [List.filter_append]
    have h1 : trb.filter RemoteCall.isCreateBlob = trb := by
      apply List.filter_eq_self.mpr
      intro c hc
      have hc2 : c ∈ (buildEntries lfs api owner repo ps).2 := by
        rw [hbuild]
        exact hc
      obtain ⟨b64, rfl⟩ := buildEntries_trace_mem hc2
      rfl
    rw [h1]
    simp [RemoteCall.isCreateBlob, hlen]
  · intro hnd
    rw [hmap]
    exact hnd

/-- Claim C1 counterexample: on the duplicated input
`["file1.txt", "file1.txt"]` the code calls the remote create-blob
endpoint twice although there is one distinct path, and the tree-entry
list it sends contains the same path twice — refuting "exactly once per
distinct path" and "no duplicates" for general inputs. -/
theorem claim_C1_counterexample :
    createTree sampleFS sampleOracle "o" "r" "base-tree-sha"
        ["file1.txt", "file1.txt"]
      = (Except.ok "new-tree-sha",
         [RemoteCall.createBlob "o" "r" "" "base64",
          RemoteCall.createBlob "o" "r" "" "base64",
          RemoteCall.createTree "o" "r" "base-tree-sha"
            [{ path := "file1.txt", mode := "100644", type := "blob",
               sha := "blob-sha" },
             { path := "file1.txt", mode := "100644", type := "blob",
               sha := "blob-sha" }]]) ∧
    countBlobCalls
        [RemoteCall.createBlob "o" "r" "" "base64",
         RemoteCall.createBlob "o" "r" "" "base64",
         RemoteCall.createTree "o" "r" "base-tree-sha"
           [{ path := "file1.txt", mode := "100644", type := "blob",
              sha := "blob-sha" },
            { path := "file1.txt", mode := "100644", type := "blob",
              sha := "blob-sha" }]] = 2 ∧
    (["file1.txt", "file1.txt"] : List String).dedup.length = 1 ∧
    ¬ (List.map TreeEntry.path
        [{ path := "file1.txt", mode := "100644", type := "blob",
           sha := "blob-sha" },
         { path := "file1.txt", mode := "100644", type := "blob",
           sha := "blob-sha" }]).Nodup :=
  ⟨rfl, rfl, by decide, by decide⟩

theorem claim_C1_witness :
    (["file1.txt", "file2.txt"] : List String) ≠ [] ∧
    ∃ es, RemoteCall.createTree "o" "r" "base-tree-sha" es
        ∈ (createTree sampleFS sampleOracle "o" "r" "base-tree-sha"
            ["file1.txt", "file2.txt"]).2 ∧
      sampleOracle.createTree "o" "r" "base-tree-sha" es
        = some "new-tree-sha" ∧
      es.map TreeEntry.path = ["file1.txt", "file2.txt"] ∧
      es.length = (["file1.txt", "file2.txt"] : List String).length ∧
      countBlobCalls (createTree sampleFS sampleOracle "o" "r"
          "base-tree-sha" ["file1.txt", "file2.txt"]).2
        = (["file1.txt", "file2.txt"] : List String).length ∧
      ((["file1.txt", "file2.txt"] : List String).Nodup →
        (es.map TreeEntry.path).Nodup) :=
  ⟨by decide, claim_C1 sampleFS sampleOracle "o" "r" "base-tree-sha"
    ["file1.txt", "file2.txt"] "new-tree-sha" _ (by decide) rfl⟩

/-- Claim C2: for every `CommitOptions` whose `filePaths` list is empty,
`commitViaAPI` fails with the empty-input error whose message is
`"No files to commit"`, performing zero remote calls (empty trace), so
before any network activity and creating no remote objects. -/
theorem claim_C2 (lfs : LocalFS) (api : Oracle) (opts : CommitOptions)
    (h : opts.filePaths = []) :
    commitViaAPI lfs api opts
        = (Except.error CommitError.noFilesToCommit, []) ∧
      CommitError.noFilesToCommit.message = "No files to commit" ∧
      (commitViaAPI lfs api opts).2 = [] :=
  ⟨commitViaAPI_empty h, rfl, by rw [commitViaAPI_empty h]⟩

theorem claim_C2_witness :
    commitViaAPI sampleFS sampleOracle
        { token := "token", owner := "o", repo := "r", branch := "b",
          message := "m", filePaths := [] }
      = (Except.error CommitError.noFilesToCommit, []) :=
  (claim_C2 sampleFS sampleOracle
    { token := "token", owner := "o", repo := "r", branch := "b",
      message := "m", filePaths := [] } rfl).1

/-- Claim C3: for every file path that does not exist locally,
`createBlob` fails with the file-not-found error and an empty remote
trace, so before the remote create-blob call for that file is attempted.
The run does not depend on the oracle at all (the result is the same for
any two oracles), and since the embedding is a pure function, repeated
calls with the same missing file are literally the same value: the
failure is idempotent and creates no remote state. -/
theorem claim_C3 (lfs : LocalFS) (api api2 : Oracle)
    (owner repo filePath : String) (h : lfs filePath = none) :
    createBlob lfs api owner repo filePath
        = (Except.error (CommitError.fileNotFound filePath), []) ∧
      (CommitError.fileNotFound filePath).message
        = "File not found: " ++ filePath ∧
      createBlob lfs api owner repo filePath
        = createBlob lfs api2 owner repo filePath :=
  ⟨createBlob_missing h, rfl, by
    rw [@createBlob_missing lfs api owner repo filePath h,
      @createBlob_missing lfs api2 owner repo filePath h]⟩

theorem claim_C3_witness :
    sampleFS "missing.txt" = none ∧
    createBlob sampleFS sampleOracle "o" "r" "missing.txt"
      = (Except.error (CommitError.fileNotFound "missing.txt"), []) :=
  ⟨rfl, (claim_C3 sampleFS sampleOracle sampleOracle "o" "r" "missing.txt"
    rfl).1⟩

/-- Claim C5: for every file successfully processed by `createBlob`, the
returned mode is computed solely from the local file's permission mode:
it is `"100755"` iff the mode has a bit of the POSIX mask `0o111` set,
and `"100644"` iff it has none. -/
theorem claim_C5 (lfs : LocalFS) (api : Oracle)
    (owner repo filePath : String) (b : BlobRes) (tr : List RemoteCall)
    (h : createBlob lfs api owner repo filePath = (Except.ok b, tr)) :
    ∃ file, lfs filePath = some file ∧
      b.mode = (if Nat.land file.mode 0o111 ≠ 0 then "100755"
                else "100644") ∧
      (b.mode = "100755" ↔ Nat.land file.mode 0o111 ≠ 0) ∧
      (b.mode = "100644" ↔ Nat.land file.mode 0o111 = 0) := by
  obtain ⟨file, hf, _, hm, _⟩ := createBlob_eq_ok h
  refine ⟨file, hf, hm, ?_, ?_⟩
  · rw [hm]
    by_cases hc : Nat.land file.mode 0o111 ≠ 0
    · simp [hc]
    · simp [hc]
  · rw [hm]
    by_cases hc : Nat.land file.mode 0o111 ≠ 0
    · simp [hc]
    · rw [not_not] at hc
      simp [hc]

theorem claim_C5_witness :
    (∃ file, sampleFS "file1.txt" = some file ∧
      ({ sha := "blob-sha", mode := "100644" } : BlobRes).mode
        = (if Nat.land file.mode 0o111 ≠ 0 then "100755" else "100644") ∧
      (({ sha := "blob-sha", mode := "100644" } : BlobRes).mode = "100755"
        ↔ Nat.land file.mode 0o111 ≠ 0) ∧
      (({ sha := "blob-sha", mode := "100644" } : BlobRes).mode = "100644"
        ↔ Nat.land file.mode 0o111 = 0)) ∧
    (∃ file, sampleFS "script.sh" = some file ∧
      ({ sha := "blob-sha", mode := "100755" } : BlobRes).mode
        = (if Nat.land file.mode 0o111 ≠ 0 then "100755" else "100644") ∧
      (({ sha := "blob-sha", mode := "100755" } : BlobRes).mode = "100755"
        ↔ Nat.land file.mode 0o111 ≠ 0) ∧
      (({ sha := "blob-sha", mode := "100755" } : BlobRes).mode = "100644"
        ↔ Nat.land file.mode 0o111 = 0)) ∧
    Nat.land 0o644 0o111 = 0 ∧ Nat.land 0o755 0o111 ≠ 0 :=
  ⟨claim_C5 sampleFS sampleOracle "o" "r" "file1.txt" _ _ rfl,
   claim_C5 sampleFS sampleOracle "o" "r" "script.sh" _ _ rfl,
   by decide, by decide⟩

/-- Claim C4: when a non-empty `baseSha` is supplied, the run performs no
branch-ref lookup at all, its only commit lookup is on exactly that id
(it is the first remote call when files are present), the base used is
`{commitId := baseSha, treeId := tree of that commit}` (every tree is
built on that commit's tree and every commit created has `baseSha` as
its parent list); when `baseSha` is absent, both are resolved from the
branch ref: the first remote call is the ref lookup and every commit
lookup is on the tip the ref lookup returned. -/
theorem claim_C4 (lfs : LocalFS) (api : Oracle) (opts : CommitOptions) :
    (∀ s, opts.baseSha = some s → s ≠ "" →
      (∀ c ∈ (commitViaAPI lfs api opts).2, c.isGetRef = false) ∧
      (∀ c ∈ (commitViaAPI lfs api opts).2, c.isGetCommit = true →
        c = RemoteCall.getCommit opts.owner opts.repo s) ∧
      (opts.filePaths ≠ [] → (commitViaAPI lfs api opts).2.head?
        = some (RemoteCall.getCommit opts.owner opts.repo s)) ∧
      (∀ t es, RemoteCall.createTree opts.owner opts.repo t es
          ∈ (commitViaAPI lfs api opts).2 →
        api.getCommit opts.owner opts.repo s = some t) ∧
      (∀ m t ps, RemoteCall.createCommit opts.owner opts.repo m t ps
          ∈ (commitViaAPI lfs api opts).2 → ps = [s])) ∧
    (opts.baseSha = none →
      (opts.filePaths ≠ [] → (commitViaAPI lfs api opts).2.head?
        = some (RemoteCall.getRef opts.owner opts.repo
            ("heads/" ++ opts.branch))) ∧
      (∀ c ∈ (commitViaAPI lfs api opts).2, c.isGetCommit = true →
        ∃ v, c = RemoteCall.getCommit opts.owner opts.repo v ∧
          api.getRef opts.owner opts.repo ("heads/" ++ opts.branch)
            = some v)) := by
  constructor
  · intro s hbs hne
    refine ⟨?_, ?_, commitViaAPI_head_base hbs hne, ?_, ?_⟩
    · intro c hc
      rcases commitViaAPI_trace_mem_base hbs hne hc with
        rfl | ⟨b64, rfl⟩ | ⟨t, es, rfl, _⟩ | ⟨t, rfl⟩ | ⟨sha, rfl⟩ <;> rfl
    · intro c hc hgc
      rcases commitViaAPI_trace_mem_base hbs hne hc with
        rfl | ⟨b64, rfl⟩ | ⟨t, es, rfl, _⟩ | ⟨t, rfl⟩ | ⟨sha, rfl⟩
      · rfl
      all_goals simp [RemoteCall.isGetCommit] at hgc
    · intro t es hmem
      rcases commitViaAPI_trace_mem_base hbs hne hmem with
        heq | ⟨b64, heq⟩ | ⟨t2, es2, heq, hg⟩ | ⟨t2, heq⟩ | ⟨sha, heq⟩
      · simp at heq
      · simp at heq
      · simp only [RemoteCall.createTree.injEq] at heq
        obtain ⟨_, _, rfl, _⟩ := heq
        exact hg
      · simp at heq
      · simp at heq
    · intro m t ps hmem
      rcases commitViaAPI_trace_mem_base hbs hne hmem with
        heq | ⟨b64, heq⟩ | ⟨t2, es2, heq, hg⟩ | ⟨t2, heq⟩ | ⟨sha, heq⟩
      · simp at heq
      · simp at heq
      · simp at heq
      · simp only [RemoteCall.createCommit.injEq] at heq
        obtain ⟨_, _, _, _, rfl⟩ := heq
        rfl
      · simp at heq
  · intro hbs
    refine ⟨commitViaAPI_head_branch hbs, ?_⟩
    intro c hc hgc
    rcases commitViaAPI_trace_mem_branch hbs hc with
      rfl | ⟨v, rfl, hv⟩ | ⟨b64, rfl⟩ | ⟨t, es, rfl⟩ | ⟨t, p, rfl⟩ |
      ⟨sha, rfl⟩
    · simp [RemoteCall.isGetCommit] at hgc
    · exact ⟨v, rfl, hv⟩
    all_goals simp [RemoteCall.isGetCommit] at hgc

theorem claim_C4_witness :
    (commitViaAPI sampleFS sampleOracle
        { sampleOpts with baseSha := some "provided-base-sha" }).2.head?
      = some (RemoteCall.getCommit "o" "r" "provided-base-sha") ∧
    (commitViaAPI sampleFS sampleOracle sampleOpts).2.head?
      = some (RemoteCall.getRef "o" "r" "heads/b") := by
  constructor
  · exact ((claim_C4 sampleFS sampleOracle
      { sampleOpts with baseSha := some "provided-base-sha" }).1
      "provided-base-sha" rfl (by decide)).2.2.1 (by decide)
  · exact ((claim_C4 sampleFS sampleOracle sampleOpts).2 rfl).1 (by decide)

/-- Claim C6: in every successful run, the base tree passed to the remote
create-tree call and the parent passed to the remote create-commit call
come from the same base commit `bc`: the tree layered on is exactly the
tree of `bc` (as answered by the commit lookup) and every commit created
has parent list `[bc]`. -/
theorem claim_C6 (lfs : LocalFS) (api : Oracle) (opts : CommitOptions)
    (r : CommitResult) (tr : List RemoteCall)
    (h : commitViaAPI lfs api opts = (Except.ok r, tr)) :
    ∃ bc bt, api.getCommit opts.owner opts.repo bc = some bt ∧
      (∃ es, RemoteCall.createTree opts.owner opts.repo bt es ∈ tr ∧
        api.createTree opts.owner opts.repo bt es = some r.treeSha) ∧
      RemoteCall.createCommit opts.owner opts.repo opts.message
        r.treeSha [bc] ∈ tr ∧
      (∀ t es, RemoteCall.createTree opts.owner opts.repo t es ∈ tr →
        t = bt) ∧
      (∀ m t ps, RemoteCall.createCommit opts.owner opts.repo m t ps
        ∈ tr → ps = [bc]) := by
  obtain ⟨bc, bt, es, trb, trbase, hps, hg, hbuild, hmap, hblen, hct,
    hcc, hur, hfc, hbase, rfl⟩ := commitViaAPI_eq_ok h
  refine ⟨bc, bt, hg, ⟨es, by simp, hct⟩, by simp, ?_, ?_⟩
  · intro t2 es2 hmem
    rcases List.mem_append.mp hmem with h1 | h1
    · rcases List.mem_append.mp h1 with h2 | h2
      · rcases hbase with ⟨rfl, _, _⟩ | ⟨rfl, _, _⟩ <;> simp at h2
      · have hc2 : RemoteCall.createTree opts.owner opts.repo t2 es2
            ∈ (buildEntries lfs api opts.owner opts.repo
                opts.filePaths).2 := by
          rw [hbuild]
          exact h2
        obtain ⟨b64, heq⟩ := buildEntries_trace_mem hc2
        simp at heq
    · simp only [List.mem_cons, List.not_mem_nil, or_false] at h1
      rcases h1 with heq | heq | heq
      · simp only [RemoteCall.createTree.injEq] at heq
        exact heq.2.2.1
      · simp at heq
      · simp at heq
  · intro m t2 ps2 hmem
    rcases List.mem_append.mp hmem with h1 | h1
    · rcases List.mem_append.mp h1 with h2 | h2
      · rcases hbase with ⟨rfl, _, _⟩ | ⟨rfl, _, _⟩ <;> simp at h2
      · have hc2 : RemoteCall.createCommit opts.owner opts.repo m t2 ps2
            ∈ (buildEntries lfs api opts.owner opts.repo
                opts.filePaths).2 := by
          rw [hbuild]
          exact h2
        obtain ⟨b64, heq⟩ := buildEntries_trace_mem hc2
        simp at heq
    · simp only [List.mem_cons, List.not_mem_nil, or_false] at h1
      rcases h1 with heq | heq | heq
      · simp at heq
      · simp only [RemoteCall.createCommit.injEq] at heq
        exact heq.2.2.2.2
      · simp at heq

theorem claim_C6_witness :
    ∃ bc bt, sampleOracle.getCommit "o" "r" bc = some bt ∧
      (∃ es, RemoteCall.createTree "o" "r" bt es
          ∈ (commitViaAPI sampleFS sampleOracle sampleOpts).2 ∧
        sampleOracle.createTree "o" "r" bt es = some "new-tree-sha") ∧
      RemoteCall.createCommit "o" "r" "m" "new-tree-sha" [bc]
        ∈ (commitViaAPI sampleFS sampleOracle sampleOpts).2 ∧
      (∀ t es, RemoteCall.createTree "o" "r" t es
        ∈ (commitViaAPI sampleFS sampleOracle sampleOpts).2 → t = bt) ∧
      (∀ m t ps, RemoteCall.createCommit "o" "r" m t ps
        ∈ (commitViaAPI sampleFS sampleOracle sampleOpts).2 →
        ps = [bc]) :=
  claim_C6 sampleFS sampleOracle sampleOpts
    { commitSha := "commit-sha", treeSha := "new-tree-sha",
      filesCommitted := 2 } _ rfl

/-- Claim C7: the orchestration never issues a forced ref update — every
update-ref call in any trace of `commitViaAPI` carries `force = false` —
and `updateBranch` applied without its last argument equals `updateBranch`
with `force := false` (the parameter defaults to `false`). -/
theorem claim_C7 (lfs : LocalFS) (api : Oracle) (opts : CommitOptions)
    (owner2 repo2 branch2 commitSha2 : String) :
    (∀ c ∈ (commitViaAPI lfs api opts).2, ∀ o p rf sha f,
      c = RemoteCall.updateRef o p rf sha f → f = false) ∧
    updateBranch api owner2 repo2 branch2 commitSha2
      = updateBranch api owner2 repo2 branch2 commitSha2 false := by
  refine ⟨?_, rfl⟩
  intro c hc o p rf sha f heq
  rcases commitViaAPI_trace_mem hc with
    rfl | ⟨v, rfl⟩ | ⟨b64, rfl⟩ | ⟨bt, es, rfl⟩ | ⟨t, q, rfl⟩ |
    ⟨sha2, rfl⟩
  · simp at heq
  · simp at heq
  · simp at heq
  · simp at heq
  · simp at heq
  · simp only [RemoteCall.updateRef.injEq] at heq
    exact heq.2.2.2.2.symm

theorem claim_C7_witness :
    (false : Bool) = false ∧
    RemoteCall.updateRef "o" "r" "heads/b" "commit-sha" false
      ∈ (commitViaAPI sampleFS sampleOracle sampleOpts).2 :=
  ⟨(claim_C7 sampleFS sampleOracle sampleOpts "o" "r" "b" "c").1
      (RemoteCall.updateRef "o" "r" "heads/b" "commit-sha" false)
      (by decide) "o" "r" "heads/b" "commit-sha" false rfl,
   by decide⟩

/-- Claim C8: `createCommit` always sends exactly the singleton parent
list `[parentSha]` to the remote create-commit call, and every
create-commit call in any trace of `commitViaAPI` has a parent list of
length one — never a merge commit (several parents) or a root commit
(none). -/
theorem claim_C8 (lfs : LocalFS) (api : Oracle) (opts : CommitOptions)
    (owner repo treeSha parentSha message : String) :
    (createCommit api owner repo treeSha parentSha message).2
      = [RemoteCall.createCommit owner repo message treeSha
          [parentSha]] ∧
    ([parentSha] : List String).length = 1 ∧
    (∀ c ∈ (commitViaAPI lfs api opts).2, ∀ o p m t ps,
      c = RemoteCall.createCommit o p m t ps → ps.length = 1) := by
  refine ⟨createCommit_trace api owner repo treeSha parentSha message,
    rfl, ?_⟩
  intro c hc o p m t ps heq
  rcases commitViaAPI_trace_mem hc with
    rfl | ⟨v, rfl⟩ | ⟨b64, rfl⟩ | ⟨bt, es, rfl⟩ | ⟨t2, q, rfl⟩ |
    ⟨sha2, rfl⟩
  · simp at heq
  · simp at heq
  · simp at heq
  · simp at heq
  · simp only [RemoteCall.createCommit.injEq] at heq
    rw [← heq.2.2.2.2]
    rfl
  · simp at heq

theorem claim_C8_witness :
    (["base-sha"] : List String).length = 1 ∧
    RemoteCall.createCommit "o" "r" "m" "new-tree-sha" ["base-sha"]
      ∈ (commitViaAPI sampleFS sampleOracle sampleOpts).2 :=
  ⟨(claim_C8 sampleFS sampleOracle sampleOpts "o" "r" "x" "y" "z").2.2
      (RemoteCall.createCommit "o" "r" "m" "new-tree-sha" ["base-sha"])
      (by decide) "o" "r" "m" "new-tree-sha" ["base-sha"] rfl,
   by decide⟩

/-- Claim C9: every successful run returns `commitSha` equal to the id
the remote create-commit call answered, `treeSha` equal to the new tree
id the remote create-tree call answered, and `filesCommitted` equal to
the length of the input `filePaths`. -/
theorem claim_C9 (lfs : LocalFS) (api : Oracle) (opts : CommitOptions)
    (r : CommitResult) (tr : List RemoteCall)
    (h : commitViaAPI lfs api opts = (Except.ok r, tr)) :
    r.filesCommitted = opts.filePaths.length ∧
    ∃ bc bt es, api.getCommit opts.owner opts.repo bc = some bt ∧
      api.createTree opts.owner opts.repo bt es = some r.treeSha ∧
      api.createCommit opts.owner opts.repo opts.message r.treeSha [bc]
        = some r.commitSha := by
  obtain ⟨bc, bt, es, trb, trbase, hps, hg, hbuild, hmap, hblen, hct,
    hcc, hur, hfc, hbase, rfl⟩ := commitViaAPI_eq_ok h
  exact ⟨hfc, bc, bt, es, hg, hct, hcc⟩

theorem claim_C9_witness :
    commitViaAPI sampleFS sampleOracle sampleOpts
      = (Except.ok { commitSha := "commit-sha", treeSha := "new-tree-sha",
                     filesCommitted := 2 },
         [RemoteCall.getRef "o" "r" "heads/b",
          RemoteCall.getCommit "o" "r" "base-sha",
          RemoteCall.createBlob "o" "r" "" "base64",
          RemoteCall.createBlob "o" "r" "" "base64",
          RemoteCall.createTree "o" "r" "base-tree-sha"
            [{ path := "file1.txt", mode := "100644", type := "blob",
               sha := "blob-sha" },
             { path := "file2.txt", mode := "100644", type := "blob",
               sha := "blob-sha" }],
          RemoteCall.createCommit "o" "r" "m" "new-tree-sha" ["base-sha"],
          RemoteCall.updateRef "o" "r" "heads/b" "commit-sha" false]) ∧
    ({ commitSha := "commit-sha", treeSha := "new-tree-sha",
       filesCommitted := 2 } : CommitResult).filesCommitted
      = sampleOpts.filePaths.length ∧
    ∃ bc bt es, sampleOracle.getCommit "o" "r" bc = some bt ∧
      sampleOracle.createTree "o" "r" bt es = some "new-tree-sha" ∧
      sampleOracle.createCommit "o" "r" "m" "new-tree-sha" [bc]
        = some "commit-sha" :=
  ⟨rfl,
   (claim_C9 sampleFS sampleOracle sampleOpts
     { commitSha := "commit-sha", treeSha := "new-tree-sha",
       filesCommitted := 2 } _ rfl).1,
   (claim_C9 sampleFS sampleOracle sampleOpts
     { commitSha := "commit-sha", treeSha := "new-tree-sha",
       filesCommitted := 2 } _ rfl).2⟩

/-- Claim C10: supplying `baseSha` as the empty string behaves exactly
like omitting it (the source checks JavaScript truthiness, not
presence): the whole run is the same value as with `baseSha := none`,
and in particular the branch-ref lookup is performed first. -/
theorem claim_C10 (lfs : LocalFS) (api : Oracle) (opts : CommitOptions)
    (h : opts.baseSha = some "") :
    commitViaAPI lfs api opts
      = commitViaAPI lfs api { opts with baseSha := none } ∧
    (opts.filePaths ≠ [] →
      (commitViaAPI lfs api opts).2.head?
        = some (RemoteCall.getRef opts.owner opts.repo
            ("heads/" ++ opts.branch))) := by
  have heq : commitViaAPI lfs api opts
      = commitViaAPI lfs api { opts with baseSha := none } := by
    rw [commitViaAPI, commitViaAPI]
    simp [h]
  refine ⟨heq, fun hps => ?_⟩
  rw [heq]
  exact commitViaAPI_head_branch rfl hps

theorem claim_C10_witness :
    commitViaAPI sampleFS sampleOracle
        { sampleOpts with baseSha := some "" }
      = commitViaAPI sampleFS sampleOracle sampleOpts ∧
    (commitViaAPI sampleFS sampleOracle
        { sampleOpts with baseSha := some "" }).2.head?
      = some (RemoteCall.getRef "o" "r" "heads/b") :=
  ⟨(claim_C10 sampleFS sampleOracle
      { sampleOpts with baseSha := some "" } rfl).1,
   (claim_C10 sampleFS sampleOracle
      { sampleOpts with baseSha := some "" } rfl).2 (by simp [sampleOpts])⟩

end CommitAction
